import Mathlib

/-!
# Shallow embedding of `src/ComputeSales/compute_sales.py`

The program loads two JSON files (a price catalogue and a sales record),
computes the total sales cost, and reports it on the console and in
`SalesResults.txt`.

Modelling conventions:

* JSON values are the inductive `JValue`.  Python numbers (`int`/`float`)
  are modelled as exact rationals `ℚ`; floating-point rounding is
  abstracted away (the spec itself treats summation order / rounding as
  tolerant).  Python `bool` is a separate constructor because JSON
  `true`/`false` parse to it and `isinstance(True, int)` holds in Python.
* `dict.get(k)` on a parsed JSON object is `objGet`, returning
  `Option JValue` (`none` models Python `None`).
* Attribute access `x.get(...)` on a non-dict raises `AttributeError`;
  membership `x in dict` with an unhashable key (list/dict) raises
  `TypeError`.  Fallible code therefore lives in `Except PyError`.
* The catalogue index `price_catalogue_dict` is an insertion-ordered
  association list with overwrite-on-duplicate, exactly like a Python
  dict whose keys are strings.  Prices are stored by numeric value
  (Python stores the object itself, but every use of a stored price is
  arithmetic, where `True`/`False` act as `1`/`0`).
* Console output is modelled as a list of structured messages; the spec
  says exact wording is not a behavioral contract, so warnings carry the
  data that the f-strings interpolate.
-/

namespace ComputeSales

/-- A parsed JSON value (plus Python `bool`, which JSON `true`/`false`
parse to and which Python's `isinstance(_, int)` accepts). -/
inductive JValue : Type where
  | null : JValue
  | bool : Bool → JValue
  | num : ℚ → JValue
  | str : String → JValue
  | arr : List JValue → JValue
  | obj : List (String × JValue) → JValue

/-- Uncaught Python exceptions the modelled code can raise. -/
inductive PyError : Type where
  | attributeError : PyError
  | typeError : PyError
  | osError : PyError
  deriving DecidableEq, Repr

/-- `fields.get(k)` on a parsed JSON object: the binding of the key
(parsed objects have unique keys), `none` for a missing key. -/
def objGet : List (String × JValue) → String → Option JValue
  | [], _ => none
  | (k', v) :: rest, k => if k' = k then some v else objGet rest k

/-- `isinstance(v, (int, float))` — Python `bool` is a subclass of `int`. -/
def isNumeric : JValue → Bool
  | .bool _ => true
  | .num _ => true
  | _ => false

/-- Numeric value of a Python number; `True`/`False` act as `1`/`0`. -/
def numVal : JValue → ℚ
  | .bool b => if b then 1 else 0
  | .num q => q
  | _ => 0

/-- Numeric value of an optional field (only used after `isNumeric`). -/
def numValOpt : Option JValue → ℚ
  | some v => numVal v
  | none => 0

/-- The catalogue index: a Python dict from title to price. -/
abbrev PriceDict : Type := List (String × ℚ)

/-- `d[k] = v` on a Python dict: overwrite in place if the key exists,
otherwise append. -/
def dictInsert : PriceDict → String → ℚ → PriceDict
  | [], k, v => [(k, v)]
  | (k', v') :: rest, k, v =>
    if k' = k then (k, v) :: rest else (k', v') :: dictInsert rest k v

/-- Key lookup in the catalogue index. -/
def dictLookup : PriceDict → String → Option ℚ
  | [], _ => none
  | (k', v) :: rest, k => if k' = k then some v else dictLookup rest k

/-- `product in price_catalogue_dict` for a hashable `product`: only a
string can equal a string key. -/
def inDict (product : Option JValue) (d : PriceDict) : Bool :=
  match product with
  | some (.str s) => (dictLookup d s).isSome
  | _ => false

/-- `price_catalogue_dict[product]`, defined (`= 0` junk value) outside
the domain; only used under `inDict product d = true`. -/
def dictGet (d : PriceDict) (product : Option JValue) : ℚ :=
  match product with
  | some (.str s) => (dictLookup d s).getD 0
  | _ => 0

/-- Whether `x in dict` may be evaluated: Python lists and dicts are
unhashable and make the membership test raise `TypeError`. -/
def isHashable : Option JValue → Bool
  | some (.arr _) => false
  | some (.obj _) => false
  | _ => true

/-- The acceptance test of line 106:
`not (not isinstance(quantity, (int, float)) or quantity < 0)`. -/
def quantityOk : Option JValue → Bool
  | some v => isNumeric v && !(decide (numVal v < 0))
  | none => false

/-- One console warning, carrying the data its f-string interpolates. -/
inductive Warning : Type where
  | invalidEntry : JValue → Warning
  | notFound : Option JValue → Warning
  | invalidQty : Option JValue → Warning

/-- The test of lines 73–76 on one catalogue record: a dict with a
string-typed `title` and a numeric-typed `price`; yields the
(title, numeric price) pair inserted into the index. -/
def validEntry : JValue → Option (String × ℚ)
  | .obj fields =>
    match objGet fields "title", objGet fields "price" with
    | some (.str t), some p => if isNumeric p then some (t, numVal p) else none
    | _, _ => none
  | _ => none

/-- Loop of `convert_catalogue_to_dict` (lines 71–79), with the dict
built so far as accumulator.  `item.get` on a non-dict raises; an
invalid entry gets an `Invalid product entry` warning and is skipped. -/
def convertGo : List JValue → PriceDict → Except PyError (PriceDict × List Warning)
  | [], d => .ok (d, [])
  | item :: rest, d =>
    match item with
    | .obj fields =>
      match validEntry (.obj fields) with
      | some (t, v) => convertGo rest (dictInsert d t v)
      | none =>
        match convertGo rest d with
        | .error e => .error e
        | .ok (d', ws) => .ok (d', .invalidEntry (.obj fields) :: ws)
    | _ => .error .attributeError

/-- `convert_catalogue_to_dict` (lines 60–79): returns the index and the
`Invalid product entry` warnings in input order. -/
def convert_catalogue_to_dict (price_catalogue : List JValue) :
    Except PyError (PriceDict × List Warning) :=
  convertGo price_catalogue []

/-- Lines 97–98: `sale.get("Product")` and `sale.get("Quantity")`,
raising `AttributeError` when the sale record is not a dict. -/
def extractSale : JValue → Except PyError (Option JValue × Option JValue)
  | .obj fields => .ok (objGet fields "Product", objGet fields "Quantity")
  | _ => .error .attributeError

/-- Lines 102–110 for one sale, against an index `d`: the not-found
check (line 102) runs before the quantity check (line 106); an accepted
sale contributes `price * quantity`.  The membership test raises
`TypeError` on an unhashable `Product` value. -/
def processSale (d : PriceDict) (product quantity : Option JValue) :
    Except PyError (List Warning × ℚ) :=
  if isHashable product then
    if inDict product d then
      if quantityOk quantity then
        .ok ([], dictGet d product * numValOpt quantity)
      else .ok ([.invalidQty product], 0)
    else .ok ([.notFound product], 0)
  else .error .typeError

/-- Result of `compute_total_sales`: the returned float and the warnings
printed during the run, in order. -/
structure ComputeResult : Type where
  total : ℚ
  warnings : List Warning

/-- `compute_total_sales` (lines 82–112).  Per sale, in source order:
extract the fields (lines 97–98), rebuild the catalogue index
(line 100) — emitting its warnings again on every iteration — then run
the two checks and accumulate.  Summation order over ℚ is immaterial. -/
def compute_total_sales (price_catalogue : List JValue) :
    List JValue → Except PyError ComputeResult
  | [] => .ok ⟨0, []⟩
  | sale :: rest =>
    match extractSale sale with
    | .error e => .error e
    | .ok (product, quantity) =>
      match convert_catalogue_to_dict price_catalogue with
      | .error e => .error e
      | .ok (d, catWs) =>
        match processSale d product quantity with
        | .error e => .error e
        | .ok (ws, contrib) =>
          match compute_total_sales price_catalogue rest with
          | .error e => .error e
          | .ok st => .ok ⟨contrib + st.total, catWs ++ ws ++ st.warnings⟩

/-- The per-sale loop of the §9 re-implementation: identical checks
against a prebuilt index, so no per-sale catalogue warnings. -/
def variantGo (d : PriceDict) : List JValue → Except PyError ComputeResult
  | [] => .ok ⟨0, []⟩
  | sale :: rest =>
    match extractSale sale with
    | .error e => .error e
    | .ok (product, quantity) =>
      match processSale d product quantity with
      | .error e => .error e
      | .ok (ws, contrib) =>
        match variantGo d rest with
        | .error e => .error e
        | .ok st => .ok ⟨contrib + st.total, ws ++ st.warnings⟩

/-- The §9 variant of `compute_total_sales`: build the catalogue index
exactly once, before the per-sale loop. -/
def compute_total_sales_prebuilt (price_catalogue sales_record : List JValue) :
    Except PyError ComputeResult :=
  match convert_catalogue_to_dict price_catalogue with
  | .error e => .error e
  | .ok (d, catWs) =>
    match variantGo d sales_record with
    | .error e => .error e
    | .ok st => .ok ⟨st.total, catWs ++ st.warnings⟩

/-- The valid (title, price) pairs of a catalogue, in input order. -/
def catEntries (price_catalogue : List JValue) : List (String × ℚ) :=
  price_catalogue.filterMap validEntry

/-- Claim C1's per-record term: a record is accepted iff its `Product`
is a key of the index and its `Quantity` is numeric and non-negative;
an accepted record contributes (catalogue price) × (quantity). -/
def saleContrib (d : PriceDict) : JValue → ℚ
  | .obj fields =>
    if inDict (objGet fields "Product") d &&
        quantityOk (objGet fields "Quantity") then
      dictGet d (objGet fields "Product") * numValOpt (objGet fields "Quantity")
    else 0
  | _ => 0

/-- Spec-side sum (claim C1's words): over all accepted sale records —
`Product` a key of the index, `Quantity` numeric and non-negative — add
(catalogue price of the Product) times (the Quantity). -/
def acceptedSum (d : PriceDict) : List JValue → ℚ
  | [] => 0
  | sale :: rest => saleContrib d sale + acceptedSum d rest

/-- How an `open` + `json.load` attempt on a path can end: the parsed
value, or one of the exceptions the attempt can raise.  `permissionError`
stands for the unreadable-file case (`PermissionError`, an `OSError`,
which is neither `FileNotFoundError` nor `json.JSONDecodeError`). -/
inductive LoadFailure : Type where
  | fileNotFound : LoadFailure
  | jsonDecodeError : LoadFailure
  | permissionError : LoadFailure
  deriving DecidableEq, Repr

/-- Outcome of attempting to open and parse one file. -/
inductive LoadOutcome : Type where
  | parsed : JValue → LoadOutcome
  | fails : LoadFailure → LoadOutcome

/-- One console line, carrying the data its f-string interpolates. -/
inductive ConsoleMsg : Type where
  | loadError : String → LoadFailure → ConsoleMsg
  | warning : Warning → ConsoleMsg
  | usage : ConsoleMsg
  | invalidFormat : ConsoleMsg
  | totalLine : String → ConsoleMsg
  | timeLine : String → ConsoleMsg

/-- `load_json_file` (lines 45–57): the `try` block catches exactly
`FileNotFoundError` and `json.JSONDecodeError`, printing one error line
and returning the empty dict `{}`; any other exception (e.g. a
`PermissionError` on an unreadable file) propagates. -/
def load_json_file (filename : String) :
    LoadOutcome → Except PyError (JValue × List ConsoleMsg)
  | .parsed v => .ok (v, [])
  | .fails .fileNotFound => .ok (.obj [], [.loadError filename .fileNotFound])
  | .fails .jsonDecodeError =>
    .ok (.obj [], [.loadError filename .jsonDecodeError])
  | .fails .permissionError => .error .osError

/-- `⌊a / b⌋` rounded to the nearest integer, ties to even (the rounding
of `format` on an exact value); `b` is positive in every use. -/
def divRoundHalfEven (a b : ℤ) : ℤ :=
  let f := a.fdiv b
  let t := 2 * (a - f * b)
  if t < b then f
  else if b < t then f + 1
  else if f % 2 = 0 then f else f + 1

/-- The exact number of cents of a rational amount, half-to-even. -/
def cents (q : ℚ) : ℤ :=
  divRoundHalfEven (100 * q.num) (q.den : ℤ)

/-- Insert a comma after every third digit of a reversed digit list. -/
def commaGroup : List Char → Nat → List Char
  | [], _ => []
  | c :: rest, n =>
    if n = 3 then ',' :: c :: commaGroup rest 1 else c :: commaGroup rest (n + 1)

/-- Decimal rendering of a natural number with thousands separators. -/
def commify (n : Nat) : String :=
  String.mk (commaGroup (toString n).data.reverse 0).reverse

/-- Two-digit rendering of `n < 100`. -/
def twoPad (n : Nat) : String :=
  if n < 10 then "0" ++ toString n else toString n

/-- `f"{x:,.2f}"`: thousands-separated, two decimals (on the exact
rational that models the float). -/
def fmtMoney (q : ℚ) : String :=
  let c := cents q
  if c < 0 then
    "-" ++ commify ((-c).toNat / 100) ++ "." ++ twoPad ((-c).toNat % 100)
  else
    commify (c.toNat / 100) ++ "." ++ twoPad (c.toNat % 100)

/-- `f"{x:.2f}"`: two decimals, no thousands separator. -/
def fmt2 (q : ℚ) : String :=
  let c := cents q
  if c < 0 then
    "-" ++ toString ((-c).toNat / 100) ++ "." ++ twoPad ((-c).toNat % 100)
  else
    toString (c.toNat / 100) ++ "." ++ twoPad (c.toNat % 100)

/-- The rendered report line `Total Sales Cost: $...` (lines 125, 154). -/
def totalLineOf (total : ℚ) : String :=
  "Total Sales Cost: $" ++ fmtMoney total

/-- The rendered report line `Execution Time: ... seconds`. -/
def timeLineOf (elapsed : ℚ) : String :=
  "Execution Time: " ++ fmt2 elapsed ++ " seconds"

/-- What a run of `main` produces when no exception escapes: the exit
status, the console lines in order, and the two lines written to
`SalesResults.txt` (if the write is reached). -/
structure MainResult : Type where
  exitCode : Nat
  console : List ConsoleMsg
  fileWritten : Option (String × String)

/-- `main` (lines 129–157), over the argument vector, the outcome of
each file load, and the measured elapsed time.  `save_results` is the
one unguarded write; it is modelled as succeeding. -/
def mainRun (argv : List String) (catOutcome salesOutcome : LoadOutcome)
    (elapsed : ℚ) : Except PyError MainResult :=
  if argv.length ≠ 3 then .ok ⟨1, [.usage], none⟩
  else
    match load_json_file ((argv.drop 1).headD "") catOutcome with
    | .error e => .error e
    | .ok (price_catalogue, msgs1) =>
      match load_json_file ((argv.drop 2).headD "") salesOutcome with
      | .error e => .error e
      | .ok (sales_record, msgs2) =>
        match price_catalogue, sales_record with
        | .arr cat, .arr sales =>
          match compute_total_sales cat sales with
          | .error e => .error e
          | .ok res =>
            .ok ⟨0,
              msgs1 ++ msgs2 ++ res.warnings.map .warning ++
                [.totalLine (totalLineOf res.total),
                  .timeLine (timeLineOf elapsed)],
              some (totalLineOf res.total, timeLineOf elapsed)⟩
        | _, _ => .ok ⟨1, msgs1 ++ msgs2 ++ [.invalidFormat], none⟩

/-- `isinstance(v, list)` (lines 146–147). -/
def isList : JValue → Bool
  | .arr _ => true
  | _ => false

/-- Whether a warning comes from the per-sale checks (not-found /
invalid-quantity) rather than from catalogue-index construction. -/
def isSaleWarning : Warning → Bool
  | .invalidEntry _ => false
  | .notFound _ => true
  | .invalidQty _ => true

/-- The price of the last valid catalogue entry carrying a given title,
if any: what "last occurrence wins" predicts the index holds. -/
def lastWins (t : String) (price_catalogue : List JValue) : Option ℚ :=
  (((catEntries price_catalogue).filter (fun e => e.1 == t)).getLast?).map
    Prod.snd

/-- The spec's example catalogue:
`[{"title": "A", "price": 10}, {"title": "B", "price": 5}]`. -/
def exampleCatalogue : List JValue :=
  [.obj [("title", .str "A"), ("price", .num 10)],
    .obj [("title", .str "B"), ("price", .num 5)]]

/-- The spec's example sales record:
`[{"Product": "A", "Quantity": 2}, {"Product": "C", "Quantity": 1},
{"Product": "B", "Quantity": -1}]`. -/
def exampleSales : List JValue :=
  [.obj [("Product", .str "A"), ("Quantity", .num 2)],
    .obj [("Product", .str "C"), ("Quantity", .num 1)],
    .obj [("Product", .str "B"), ("Quantity", .num (-1))]]

/-- A catalogue with a negative price: `[{"title": "A", "price": -5}]`. -/
def negativeCatalogue : List JValue :=
  [.obj [("title", .str "A"), ("price", .num (-5))]]

/-- One sale of one unit of product `A`. -/
def oneSaleA : List JValue :=
  [.obj [("Product", .str "A"), ("Quantity", .num 1)]]

/-- A catalogue whose single record is the empty dict `{}` — a malformed
entry that `convert_catalogue_to_dict` warns about and skips. -/
def emptyDictCatalogue : List JValue := [.obj []]

/-- A catalogue giving title `X` twice: price 10, then price 99. -/
def duplicateCatalogue : List JValue :=
  [.obj [("title", .str "X"), ("price", .num 10)],
    .obj [("title", .str "X"), ("price", .num 99)]]

/-- Looking a key up after a dict insertion: the inserted key returns
the new value, any other key is unaffected. -/
theorem dictLookup_insert (d : PriceDict) (k k' : String) (v : ℚ) :
    dictLookup (dictInsert d k v) k' = if k' = k then some v else dictLookup d k' := by
  induction d with
  | nil =>
    by_cases h : k' = k
    · subst h; simp [dictInsert, dictLookup]
    · simp [dictInsert, dictLookup, h, Ne.symm h]
  | cons e rest ih =>
    obtain ⟨a, b⟩ := e
    by_cases hak : a = k
    · subst hak
      by_cases h : k' = a
      · subst h; simp [dictInsert, dictLookup]
      · simp [dictInsert, dictLookup, h, Ne.symm h]
    · by_cases h : a = k'
      · subst h
        simp [dictInsert, dictLookup, hak, Ne.symm hak]
      · simp [dictInsert, dictLookup, hak, h, ih]

/-- `getLast?` of a cons, phrased with `Option.or`. -/
theorem getLast?_or {α : Type} (a : α) (l : List α) :
    (a :: l).getLast? = l.getLast?.or (some a) := by
  induction l generalizing a with
  | nil => simp
  | cons b l ih =>
    rw [List.getLast?_cons_cons, ih b]
    cases h : l.getLast? <;> simp [Option.or]

/-- `getLast?` returns an element of the list. -/
theorem getLast?_mem' {α : Type} (l : List α) (a : α) (h : l.getLast? = some a) :
    a ∈ l := by
  induction l with
  | nil => simp at h
  | cons b l ih =>
    rw [getLast?_or] at h
    cases hl : l.getLast? with
    | none => rw [hl] at h; simp [Option.or] at h; simp [h]
    | some c =>
      rw [hl] at h; simp [Option.or] at h
      exact List.mem_cons_of_mem _ (ih (h ▸ hl))
/-- What the built index holds at any title: the price of the last valid
entry for that title if there is one, otherwise whatever the initial
accumulator held. -/
theorem convertGo_lookup (cat : List JValue) (t : String) :
    ∀ (d d' : PriceDict) (ws : List Warning), convertGo cat d = .ok (d', ws) →
      dictLookup d' t = (lastWins t cat).or (dictLookup d t) := by
  induction cat with
  | nil =>
    intro d d' ws h
    simp only [convertGo, Except.ok.injEq, Prod.mk.injEq] at h
    obtain ⟨h1, h2⟩ := h
    simp [lastWins, catEntries, ← h1]
  | cons item rest ih =>
    intro d d' ws h
    cases item with
    | obj fields =>
      cases hv : validEntry (.obj fields) with
      | some e =>
        obtain ⟨k, v⟩ := e
        simp only [convertGo, hv] at h
        have hrec := ih (dictInsert d k v) d' ws h
        rw [dictLookup_insert] at hrec
        by_cases hkt : k = t
        · subst hkt
          rw [hrec]
          simp only [lastWins, catEntries, List.filterMap_cons, hv,
            List.filter_cons, beq_self_eq_true, if_true, if_pos rfl]
          rw [getLast?_or, Option.map_or', Option.or_assoc]
          simp [Option.or]
        · rw [hrec]
          simp only [lastWins, catEntries, List.filterMap_cons, hv,
            List.filter_cons]
          have : (((k, v) : String × ℚ).1 == t) = false := by
            simp [hkt]
          rw [this]
          simp [Ne.symm hkt]
      | none =>
        simp only [convertGo, hv] at h
        cases hrec : convertGo rest d with
        | error e => rw [hrec] at h; cases h
        | ok pr =>
          obtain ⟨d'', ws'⟩ := pr
          rw [hrec] at h
          simp only [Except.ok.injEq, Prod.mk.injEq] at h
          obtain ⟨h1, h2⟩ := h
          subst h1
          rw [ih d d'' ws' hrec]
          simp [lastWins, catEntries, List.filterMap_cons, hv]
    | null => simp [convertGo] at h
    | bool b => simp [convertGo] at h
    | num q => simp [convertGo] at h
    | str s => simp [convertGo] at h
    | arr l => simp [convertGo] at h

/-- If the aggregation loop completed on a non-empty sales list, index
construction must have completed too. -/
theorem compute_ok_convert_ok (cat : List JValue) (sale : JValue)
    (rest : List JValue) (st : ComputeResult)
    (h : compute_total_sales cat (sale :: rest) = .ok st) :
    ∃ d cws, convert_catalogue_to_dict cat = .ok (d, cws) := by
  cases sale with
  | obj fields =>
    simp only [compute_total_sales, extractSale] at h
    cases hc : convert_catalogue_to_dict cat with
    | error e => rw [hc] at h; cases h
    | ok pr => exact ⟨pr.1, pr.2, by simp [hc]⟩
  | null => simp [compute_total_sales, extractSale] at h
  | bool b => simp [compute_total_sales, extractSale] at h
  | num q => simp [compute_total_sales, extractSale] at h
  | str s => simp [compute_total_sales, extractSale] at h
  | arr l => simp [compute_total_sales, extractSale] at h

/-- The total returned by a completed run is the claim's sum over
accepted sales against the built index. -/
theorem compute_eq_acceptedSum (cat : List JValue) (d : PriceDict)
    (cws : List Warning)
    (hc : convert_catalogue_to_dict cat = .ok (d, cws)) :
    ∀ (sales : List JValue) (st : ComputeResult),
      compute_total_sales cat sales = .ok st → st.total = acceptedSum d sales := by
  intro sales
  induction sales with
  | nil =>
    intro st h
    simp only [compute_total_sales, Except.ok.injEq] at h
    simp [← h, acceptedSum]
  | cons sale rest ih =>
    intro st h
    cases sale with
    | obj fields =>
      simp only [compute_total_sales, extractSale, hc] at h
      by_cases hH : isHashable (objGet fields "Product") = true
      · by_cases hin : inDict (objGet fields "Product") d = true
        · by_cases hq : quantityOk (objGet fields "Quantity") = true
          · simp only [processSale, hH, hin, hq, if_true] at h
            cases hr : compute_total_sales cat rest with
            | error e => rw [hr] at h; cases h
            | ok st' =>
              rw [hr] at h
              simp only [Except.ok.injEq] at h
              rw [← h]
              simp [acceptedSum, saleContrib, hin, hq, ih st' hr]
          · simp only [processSale, hH, hin, hq, if_true, Bool.false_eq_true,
              if_false] at h
            cases hr : compute_total_sales cat rest with
            | error e => rw [hr] at h; cases h
            | ok st' =>
              rw [hr] at h
              simp only [Except.ok.injEq] at h
              rw [← h]
              simp [acceptedSum, saleContrib, hin, hq, ih st' hr]
        · simp only [processSale, hH, hin, if_true, Bool.false_eq_true,
            if_false] at h
          cases hr : compute_total_sales cat rest with
          | error e => rw [hr] at h; cases h
          | ok st' =>
            rw [hr] at h
            simp only [Except.ok.injEq] at h
            rw [← h]
            simp [acceptedSum, saleContrib, hin, ih st' hr]
      · simp only [processSale, hH, Bool.false_eq_true, if_false] at h
        cases h
    | null => simp [compute_total_sales, extractSale] at h
    | bool b => simp [compute_total_sales, extractSale] at h
    | num q => simp [compute_total_sales, extractSale] at h
    | str s => simp [compute_total_sales, extractSale] at h
    | arr l => simp [compute_total_sales, extractSale] at h

/-- A "last occurrence wins" price belongs to the valid entries. -/
theorem lastWins_mem (t : String) (cat : List JValue) (v : ℚ)
    (h : lastWins t cat = some v) : (t, v) ∈ catEntries cat := by
  simp only [lastWins, Option.map_eq_some'] at h
  obtain ⟨e, he, hv⟩ := h
  have hmem := getLast?_mem' _ _ he
  rw [List.mem_filter] at hmem
  obtain ⟨hin, ht⟩ := hmem
  have h1 : e.1 = t := by simpa using ht
  have h2 : e = (t, v) := by
    obtain ⟨e1, e2⟩ := e
    simp_all
  rw [← h2]
  exact hin

/-- Every value stored in the built index is the price of some valid
catalogue entry with the looked-up title. -/
theorem convert_lookup_mem (cat : List JValue) (d : PriceDict)
    (cws : List Warning) (hc : convert_catalogue_to_dict cat = .ok (d, cws))
    (k : String) (v : ℚ) (h : dictLookup d k = some v) :
    (k, v) ∈ catEntries cat := by
  have hchar := convertGo_lookup cat k [] d cws hc
  rw [h] at hchar
  cases hl : lastWins k cat with
  | none => rw [hl] at hchar; simp [dictLookup] at hchar
  | some v' =>
    rw [hl] at hchar
    simp [Option.or] at hchar
    exact hchar ▸ lastWins_mem k cat v' hl

/-- An accepted record's contribution is non-negative whenever the index
holds only non-negative prices. -/
theorem saleContrib_nonneg (d : PriceDict)
    (hd : ∀ k v, dictLookup d k = some v → 0 ≤ v) (sale : JValue) :
    0 ≤ saleContrib d sale := by
  cases sale with
  | obj fields =>
    by_cases hcond : (inDict (objGet fields "Product") d &&
        quantityOk (objGet fields "Quantity")) = true
    · rw [saleContrib, if_pos hcond]
      obtain ⟨hin, hq⟩ := Bool.and_eq_true_iff.mp hcond
      apply mul_nonneg
      · cases hp : objGet fields "Product" with
        | none => simp [inDict, hp] at hin
        | some pv =>
          cases pv with
          | str s =>
            simp only [dictGet, hp]
            cases hl : dictLookup d s with
            | none => simp
            | some w => simpa using hd s w hl
          | null => simp [inDict, hp] at hin
          | bool b => simp [inDict, hp] at hin
          | num q => simp [inDict, hp] at hin
          | arr l => simp [inDict, hp] at hin
          | obj fs => simp [inDict, hp] at hin
      · cases hqv : objGet fields "Quantity" with
        | none => simp [quantityOk, hqv] at hq
        | some qv =>
          simp only [quantityOk, hqv, Bool.and_eq_true, Bool.not_eq_true',
            decide_eq_false_iff_not, not_lt] at hq
          simpa [numValOpt] using hq.2
    · rw [saleContrib, if_neg hcond]
  | null => simp [saleContrib]
  | bool b => simp [saleContrib]
  | num q => simp [saleContrib]
  | str s => simp [saleContrib]
  | arr l => simp [saleContrib]

/-- If the index holds only non-negative prices, the claim-side accepted
sum is non-negative. -/
theorem acceptedSum_nonneg (d : PriceDict)
    (hd : ∀ k v, dictLookup d k = some v → 0 ≤ v) :
    ∀ sales : List JValue, 0 ≤ acceptedSum d sales := by
  intro sales
  induction sales with
  | nil => simp [acceptedSum]
  | cons sale rest ih =>
    rw [acceptedSum]
    have := saleContrib_nonneg d hd sale
    positivity

/-- Index construction only ever warns `Invalid product entry`. -/
theorem convertGo_warnings (cat : List JValue) :
    ∀ (d d' : PriceDict) (ws : List Warning), convertGo cat d = .ok (d', ws) →
      ∀ w ∈ ws, ∃ item, w = .invalidEntry item := by
  induction cat with
  | nil =>
    intro d d' ws h w hw
    simp only [convertGo, Except.ok.injEq, Prod.mk.injEq] at h
    rw [← h.2] at hw
    simp at hw
  | cons item rest ih =>
    intro d d' ws h w hw
    cases item with
    | obj fields =>
      cases hv : validEntry (.obj fields) with
      | some e =>
        obtain ⟨k, v⟩ := e
        simp only [convertGo, hv] at h
        exact ih (dictInsert d k v) d' ws h w hw
      | none =>
        simp only [convertGo, hv] at h
        cases hrec : convertGo rest d with
        | error e => rw [hrec] at h; cases h
        | ok pr =>
          obtain ⟨d'', ws'⟩ := pr
          rw [hrec] at h
          simp only [Except.ok.injEq, Prod.mk.injEq] at h
          rw [← h.2] at hw
          rcases List.mem_cons.mp hw with hw1 | hw2
          · exact ⟨.obj fields, hw1⟩
          · exact ih d d'' ws' hrec w hw2
    | null => simp [convertGo] at h
    | bool b => simp [convertGo] at h
    | num q => simp [convertGo] at h
    | str s => simp [convertGo] at h
    | arr l => simp [convertGo] at h

/-- A catalogue whose records are all valid builds an index with no
warnings, from any accumulator. -/
theorem convert_all_valid (cat : List JValue)
    (h : ∀ item ∈ cat, (validEntry item).isSome = true) :
    ∀ d : PriceDict, ∃ d', convertGo cat d = .ok (d', []) := by
  induction cat with
  | nil => intro d; exact ⟨d, rfl⟩
  | cons item rest ih =>
    intro d
    have hi : (validEntry item).isSome = true := h item (by simp)
    cases hv : validEntry item with
    | none => rw [hv] at hi; simp at hi
    | some e =>
      obtain ⟨k, v⟩ := e
      cases item with
      | obj fields =>
        obtain ⟨d', hd'⟩ :=
          ih (fun x hx => h x (List.mem_cons_of_mem _ hx)) (dictInsert d k v)
        exact ⟨d', by simp only [convertGo, hv]; exact hd'⟩
      | null => simp [validEntry] at hv
      | bool b => simp [validEntry] at hv
      | num q => simp [validEntry] at hv
      | str s => simp [validEntry] at hv
      | arr l => simp [validEntry] at hv

/-- Against an index built with no warnings, the original per-sale loop
(which rebuilds the index each iteration) coincides with the §9 loop
over the prebuilt index. -/
theorem compute_eq_variantGo (cat : List JValue) (d : PriceDict)
    (hc : convert_catalogue_to_dict cat = .ok (d, [])) :
    ∀ sales : List JValue, compute_total_sales cat sales = variantGo d sales := by
  intro sales
  induction sales with
  | nil => rfl
  | cons sale rest ih =>
    cases sale with
    | obj fields =>
      simp only [compute_total_sales, variantGo, extractSale, hc]
      cases hps : processSale d (objGet fields "Product") (objGet fields "Quantity") with
      | error e => rfl
      | ok pr =>
        obtain ⟨ws, c⟩ := pr
        rw [ih]
        cases hv : variantGo d rest with
        | error e => rfl
        | ok st => simp
    | null => rfl
    | bool b => rfl
    | num q => rfl
    | str s => rfl
    | arr l => rfl

/-- Catalogue warnings count as zero sale warnings. -/
theorem countP_isSaleWarning_cws (cws : List Warning)
    (h : ∀ w ∈ cws, ∃ item, w = .invalidEntry item) :
    cws.countP isSaleWarning = 0 := by
  rw [List.countP_eq_zero]
  intro w hw
  obtain ⟨item, hitem⟩ := h w hw
  simp [hitem, isSaleWarning]

/-- Per-sale warning discipline of a completed run: at most one sale
warning per sale record; an invalid-quantity warning only carries a
product that is in the index; a not-found warning only carries one that
is not. -/
theorem compute_warnings_spec (cat : List JValue) (d : PriceDict)
    (cws : List Warning)
    (hc : convert_catalogue_to_dict cat = .ok (d, cws)) :
    ∀ (sales : List JValue) (st : ComputeResult),
      compute_total_sales cat sales = .ok st →
        st.warnings.countP isSaleWarning ≤ sales.length ∧
        (∀ p, Warning.invalidQty p ∈ st.warnings → inDict p d = true) ∧
        (∀ p, Warning.notFound p ∈ st.warnings → inDict p d = false) := by
  have hcws : ∀ w ∈ cws, ∃ item, w = Warning.invalidEntry item :=
    convertGo_warnings cat [] d cws hc
  have hcount : cws.countP isSaleWarning = 0 := countP_isSaleWarning_cws cws hcws
  intro sales
  induction sales with
  | nil =>
    intro st h
    simp only [compute_total_sales, Except.ok.injEq] at h
    refine ⟨?_, ?_, ?_⟩ <;> simp [← h]
  | cons sale rest ih =>
    intro st h
    cases sale with
    | obj fields =>
      simp only [compute_total_sales, extractSale, hc] at h
      by_cases hH : isHashable (objGet fields "Product") = true
      · by_cases hin : inDict (objGet fields "Product") d = true
        · by_cases hq : quantityOk (objGet fields "Quantity") = true
          · simp only [processSale, hH, hin, hq, if_true] at h
            cases hr : compute_total_sales cat rest with
            | error e => rw [hr] at h; cases h
            | ok st' =>
              rw [hr] at h
              simp only [Except.ok.injEq] at h
              obtain ⟨hcnt, hiq, hnf⟩ := ih st' hr
              refine ⟨?_, ?_, ?_⟩
              · rw [← h]
                simp only [List.countP_append, List.length_cons, hcount,
                  List.countP_nil]
                omega
              · intro p hp
                rw [← h] at hp
                simp only [List.mem_append] at hp
                rcases hp with (hp | hp) | hp
                · obtain ⟨item, hitem⟩ := hcws _ hp; cases hitem
                · simp at hp
                · exact hiq p hp
              · intro p hp
                rw [← h] at hp
                simp only [List.mem_append] at hp
                rcases hp with (hp | hp) | hp
                · obtain ⟨item, hitem⟩ := hcws _ hp; cases hitem
                · simp at hp
                · exact hnf p hp
          · simp only [processSale, hH, hin, hq, if_true, Bool.false_eq_true,
              if_false] at h
            cases hr : compute_total_sales cat rest with
            | error e => rw [hr] at h; cases h
            | ok st' =>
              rw [hr] at h
              simp only [Except.ok.injEq] at h
              obtain ⟨hcnt, hiq, hnf⟩ := ih st' hr
              refine ⟨?_, ?_, ?_⟩
              · rw [← h]
                simp only [List.countP_append, List.length_cons, hcount,
                  List.countP_cons, List.countP_nil, isSaleWarning,
                  eq_self_iff_true, if_true]
                omega
              · intro p hp
                rw [← h] at hp
                simp only [List.mem_append, List.mem_cons] at hp
                rcases hp with (hp | hp) | hp
                · obtain ⟨item, hitem⟩ := hcws _ hp; cases hitem
                · rcases hp with hp | hp
                  · cases hp; exact hin
                  · simp at hp
                · exact hiq p hp
              · intro p hp
                rw [← h] at hp
                simp only [List.mem_append, List.mem_cons] at hp
                rcases hp with (hp | hp) | hp
                · obtain ⟨item, hitem⟩ := hcws _ hp; cases hitem
                · rcases hp with hp | hp
                  · cases hp
                  · simp at hp
                · exact hnf p hp
        · simp only [processSale, hH, hin, if_true, Bool.false_eq_true,
            if_false] at h
          cases hr : compute_total_sales cat rest with
          | error e => rw [hr] at h; cases h
          | ok st' =>
            rw [hr] at h
            simp only [Except.ok.injEq] at h
            obtain ⟨hcnt, hiq, hnf⟩ := ih st' hr
            refine ⟨?_, ?_, ?_⟩
            · rw [← h]
              simp only [List.countP_append, List.length_cons, hcount,
                List.countP_cons, List.countP_nil, isSaleWarning,
                eq_self_iff_true, if_true]
              omega
            · intro p hp
              rw [← h] at hp
              simp only [List.mem_append, List.mem_cons] at hp
              rcases hp with (hp | hp) | hp
              · obtain ⟨item, hitem⟩ := hcws _ hp; cases hitem
              · rcases hp with hp | hp
                · cases hp
                · simp at hp
              · exact hiq p hp
            · intro p hp
              rw [← h] at hp
              simp only [List.mem_append, List.mem_cons] at hp
              rcases hp with (hp | hp) | hp
              · obtain ⟨item, hitem⟩ := hcws _ hp; cases hitem
              · rcases hp with hp | hp
                · cases hp
                  simpa using hin
                · simp at hp
              · exact hnf p hp
      · simp only [processSale, hH, Bool.false_eq_true, if_false] at h
        cases h
    | null => simp [compute_total_sales, extractSale] at h
    | bool b => simp [compute_total_sales, extractSale] at h
    | num q => simp [compute_total_sales, extractSale] at h
    | str s => simp [compute_total_sales, extractSale] at h
    | arr l => simp [compute_total_sales, extractSale] at h

/-- Evaluating the run on the spec's example inputs. -/
theorem exampleCompute :
    compute_total_sales exampleCatalogue exampleSales =
      .ok ⟨20, [.notFound (some (.str "C")), .invalidQty (some (.str "B"))]⟩ := by
  have h : compute_total_sales exampleCatalogue exampleSales =
      .ok ⟨10 * 2 + (0 + (0 + 0)),
        [.notFound (some (.str "C")), .invalidQty (some (.str "B"))]⟩ := rfl
  rw [h]
  norm_num

/-- Evaluating index construction on the spec's example catalogue. -/
theorem exampleConvert :
    convert_catalogue_to_dict exampleCatalogue = .ok ([("A", 10), ("B", 5)], []) :=
  rfl

/-- C1: for every catalogue and sales list, a completed run returns the
sum over all accepted sale records (Product a key of the index, Quantity
numeric and non-negative) of price × quantity; on the spec's example the
total is 20.00 with exactly the two expected warnings. -/
theorem claim_C1 (cat sales : List JValue) (st : ComputeResult)
    (d : PriceDict) (cws : List Warning)
    (h : compute_total_sales cat sales = .ok st)
    (hc : convert_catalogue_to_dict cat = .ok (d, cws)) :
    st.total = acceptedSum d sales ∧
      compute_total_sales exampleCatalogue exampleSales =
        .ok ⟨20, [.notFound (some (.str "C")), .invalidQty (some (.str "B"))]⟩ ∧
      (⟨20, [.notFound (some (.str "C")),
        .invalidQty (some (.str "B"))]⟩ : ComputeResult).warnings.length = 2 :=
  ⟨compute_eq_acceptedSum cat d cws hc sales st h, exampleCompute, rfl⟩

/-- Witness for C1 at the spec's example inputs. -/
theorem claim_C1_witness :
    (⟨20, [.notFound (some (.str "C")),
        .invalidQty (some (.str "B"))]⟩ : ComputeResult).total =
      acceptedSum [("A", 10), ("B", 5)] exampleSales ∧
      compute_total_sales exampleCatalogue exampleSales =
        .ok ⟨20, [.notFound (some (.str "C")), .invalidQty (some (.str "B"))]⟩ ∧
      (⟨20, [.notFound (some (.str "C")),
        .invalidQty (some (.str "B"))]⟩ : ComputeResult).warnings.length = 2 :=
  claim_C1 exampleCatalogue exampleSales
    ⟨20, [.notFound (some (.str "C")), .invalidQty (some (.str "B"))]⟩
    [("A", 10), ("B", 5)] [] exampleCompute exampleConvert

/-- C2: the spec says `compute_total_sales` never raises on malformed
individual records, but a non-dict element in either list makes
`.get` raise an uncaught `AttributeError`: `["x"]` as the sales list, or
`[1]` as the catalogue with a non-empty sales list, abort the run. -/
theorem claim_C2 :
    compute_total_sales [] [.str "x"] = .error .attributeError ∧
      compute_total_sales [.num 1] [.obj []] = .error .attributeError :=
  ⟨rfl, rfl⟩

/-- C3 fails as stated: a catalogue may carry a negative price, and an
accepted sale of such a product makes the returned total negative. -/
theorem claim_C3_counterexample :
    compute_total_sales negativeCatalogue oneSaleA = .ok ⟨-5, []⟩ ∧
      ¬ (0 : ℚ) ≤ -5 := by
  constructor
  · have h : compute_total_sales negativeCatalogue oneSaleA =
        .ok ⟨(-5) * 1 + 0, []⟩ := rfl
    rw [h]
    norm_num
  · norm_num

/-- C3 (amended): when every valid catalogue entry has a non-negative
price, the total returned by a completed run is non-negative. -/
theorem claim_C3 (cat sales : List JValue) (st : ComputeResult)
    (hp : ∀ e ∈ catEntries cat, 0 ≤ e.2)
    (h : compute_total_sales cat sales = .ok st) : 0 ≤ st.total := by
  cases sales with
  | nil =>
    simp only [compute_total_sales, Except.ok.injEq] at h
    simp [← h]
  | cons sale rest =>
    obtain ⟨d, cws, hc⟩ := compute_ok_convert_ok cat sale rest st h
    have hd : ∀ k v, dictLookup d k = some v → 0 ≤ v := fun k v hl =>
      hp (k, v) (convert_lookup_mem cat d cws hc k v hl)
    rw [compute_eq_acceptedSum cat d cws hc _ st h]
    exact acceptedSum_nonneg d hd _

/-- Witness for C3 (amended) at the spec's example inputs. -/
theorem claim_C3_witness :
    0 ≤ (⟨20, [.notFound (some (.str "C")),
        .invalidQty (some (.str "B"))]⟩ : ComputeResult).total :=
  claim_C3 exampleCatalogue exampleSales
    ⟨20, [.notFound (some (.str "C")), .invalidQty (some (.str "B"))]⟩
    (by
      intro e he
      rw [show catEntries exampleCatalogue = [("A", 10), ("B", 5)] from rfl] at he
      rcases List.mem_cons.mp he with h | h
      · rw [h]; norm_num
      · rcases List.mem_singleton.mp h with h'
        rw [h']; norm_num)
    exampleCompute

/-- C4: when the catalogue holds two or more valid entries with the same
title, the built index maps that title to the price of the last such
entry in input order. -/
theorem claim_C4 (cat : List JValue) (t : String) (d : PriceDict)
    (ws : List Warning)
    (h : convert_catalogue_to_dict cat = .ok (d, ws))
    (hdup : 2 ≤ ((catEntries cat).filter (fun e => e.1 == t)).length) :
    dictLookup d t = lastWins t cat := by
  rw [convertGo_lookup cat t [] d ws h]
  simp [dictLookup, Option.or_none]

/-- Witness for C4 on a catalogue listing title `X` twice. -/
theorem claim_C4_witness :
    dictLookup [("X", 99)] "X" = lastWins "X" duplicateCatalogue :=
  claim_C4 duplicateCatalogue "X" [("X", 99)] [] rfl (by decide)

/-- C5 fails as stated for one failure mode: an unreadable file raises
`PermissionError`, which the `except` clause does not catch, so
`load_json_file` propagates the exception instead of returning `{}`. -/
theorem claim_C5_counterexample :
    load_json_file "salesRecord.json" (.fails .permissionError) =
      .error .osError :=
  rfl

/-- C5 (amended): for a missing file or malformed syntax,
`load_json_file` prints one message naming the file and the cause and
returns the empty mapping. -/
theorem claim_C5 (filename : String) :
    load_json_file filename (.fails .fileNotFound) =
        .ok (.obj [], [.loadError filename .fileNotFound]) ∧
      load_json_file filename (.fails .jsonDecodeError) =
        .ok (.obj [], [.loadError filename .jsonDecodeError]) :=
  ⟨rfl, rfl⟩

/-- C6: with both loads returning a value, if either top-level value is
not a list (including the Loader's `{}` sentinel), `main` prints the
format error and exits with status 1 without writing the report. -/
theorem claim_C6 (prog c s : String) (catOutcome salesOutcome : LoadOutcome)
    (elapsed : ℚ) (pc sr : JValue) (m1 m2 : List ConsoleMsg)
    (hcat : load_json_file c catOutcome = .ok (pc, m1))
    (hsales : load_json_file s salesOutcome = .ok (sr, m2))
    (hbad : isList pc = false ∨ isList sr = false) :
    mainRun [prog, c, s] catOutcome salesOutcome elapsed =
      .ok ⟨1, m1 ++ m2 ++ [.invalidFormat], none⟩ := by
  simp only [mainRun, List.length_cons, List.length_nil, ne_eq,
    List.drop, List.headD, reduceCtorEq]
  rw [if_neg (by simp)]
  rw [hcat, hsales]
  cases pc <;> cases sr <;>
    first
      | rfl
      | (rcases hbad with hb | hb <;> simp [isList] at hb)

/-- Witness for C6: the catalogue file is missing, so its load returns
the `{}` sentinel, which is not a list. -/
theorem claim_C6_witness :
    mainRun ["computeSales.py", "cat.json", "sales.json"]
        (.fails .fileNotFound) (.parsed (.arr [])) 0 =
      .ok ⟨1, [.loadError "cat.json" .fileNotFound] ++ [] ++ [.invalidFormat],
        none⟩ :=
  claim_C6 "computeSales.py" "cat.json" "sales.json"
    (.fails .fileNotFound) (.parsed (.arr [])) 0 (.obj []) (.arr [])
    [.loadError "cat.json" .fileNotFound] [] rfl rfl (Or.inl rfl)

/-- C7: with a catalogue list and an empty sales list, the run succeeds
with exit status 0, the total is 0.00, and the two report lines are both
printed and written to the output file. -/
theorem claim_C7 (prog c s : String) (cat : List JValue) (elapsed : ℚ) :
    mainRun [prog, c, s] (.parsed (.arr cat)) (.parsed (.arr [])) elapsed =
      .ok ⟨0,
        [.totalLine "Total Sales Cost: $0.00", .timeLine (timeLineOf elapsed)],
        some ("Total Sales Cost: $0.00", timeLineOf elapsed)⟩ := by
  have hfmt : totalLineOf 0 = "Total Sales Cost: $0.00" := rfl
  simp only [mainRun, List.length_cons, List.length_nil, ne_eq,
    List.drop, List.headD]
  rw [if_neg (by simp)]
  simp only [load_json_file, compute_total_sales, hfmt, List.map_nil,
    List.nil_append, List.append_nil]

/-- C8 fails as stated: on a catalogue containing an invalid entry the
variant emits the invalid-entry warning exactly once, while the original
emits it once per sale — zero times here, since the sales list is
empty — so the console warning output differs. -/
theorem claim_C8_counterexample :
    compute_total_sales emptyDictCatalogue [] = .ok ⟨0, []⟩ ∧
      compute_total_sales_prebuilt emptyDictCatalogue [] =
        .ok ⟨0, [.invalidEntry (.obj [])]⟩ ∧
      compute_total_sales_prebuilt emptyDictCatalogue [] ≠
        compute_total_sales emptyDictCatalogue [] := by
  refine ⟨rfl, rfl, ?_⟩
  intro hcontra
  rw [show compute_total_sales_prebuilt emptyDictCatalogue [] =
      .ok ⟨0, [.invalidEntry (.obj [])]⟩ from rfl,
    show compute_total_sales emptyDictCatalogue [] = .ok ⟨0, []⟩ from rfl]
    at hcontra
  simp at hcontra

/-- C8 (amended): when every catalogue record is a valid entry — so
index construction emits no warnings — building the index once before
the loop gives a result identical to the original in every respect
(total, warnings, and error behaviour). -/
theorem claim_C8 (cat sales : List JValue)
    (h : ∀ item ∈ cat, (validEntry item).isSome = true) :
    compute_total_sales_prebuilt cat sales = compute_total_sales cat sales := by
  obtain ⟨d, hc'⟩ := convert_all_valid cat h []
  have hc : convert_catalogue_to_dict cat = .ok (d, []) := hc'
  rw [compute_eq_variantGo cat d hc]
  simp only [compute_total_sales_prebuilt, hc]
  cases hv : variantGo d sales with
  | error e => rfl
  | ok st => simp

/-- Witness for C8 (amended) at the spec's example inputs. -/
theorem claim_C8_witness :
    compute_total_sales_prebuilt exampleCatalogue exampleSales =
      compute_total_sales exampleCatalogue exampleSales :=
  claim_C8 exampleCatalogue exampleSales
    (by
      intro item hi
      rw [exampleCatalogue] at hi
      rcases List.mem_cons.mp hi with h | h
      · rw [h]; rfl
      · rcases List.mem_singleton.mp h with h'
        rw [h']; rfl)

/-- C9: a boolean price passes the numeric check and is indexed as 1/0
instead of being skipped, and a boolean quantity passes the quantity
check and contributes price×1 or price×0 instead of being warned
about. -/
theorem claim_C9 (t : String) (b : Bool) (p : ℚ) :
    convert_catalogue_to_dict [.obj [("title", .str t), ("price", .bool b)]] =
        .ok ([(t, if b then 1 else 0)], []) ∧
      compute_total_sales [.obj [("title", .str t), ("price", .num p)]]
          [.obj [("Product", .str t), ("Quantity", .bool b)]] =
        .ok ⟨p * (if b then 1 else 0), []⟩ := by
  constructor
  · rfl
  · have h1 : convert_catalogue_to_dict
        [.obj [("title", .str t), ("price", .num p)]] = .ok ([(t, p)], []) := rfl
    have h2 : extractSale (.obj [("Product", .str t), ("Quantity", .bool b)]) =
        .ok (some (.str t), some (.bool b)) := rfl
    have h3 : dictLookup [(t, p)] t = some p := by simp [dictLookup]
    have h4 : inDict (some (.str t)) [(t, p)] = true := by simp [inDict, h3]
    have h5 : quantityOk (some (.bool b)) = true := by
      cases b <;> norm_num [quantityOk, isNumeric, numVal]
    have h6 : processSale [(t, p)] (some (.str t)) (some (.bool b)) =
        .ok ([], p * (if b then 1 else 0)) := by
      rw [processSale]
      simp [isHashable, h4, h5, dictGet, h3, numValOpt, numVal]
    simp only [compute_total_sales, h2, h1, h6]
    simp

/-- C10: in a completed run, each sale produces at most one of the two
per-sale warnings (so their count is bounded by the number of sales);
an invalid-quantity warning is only ever emitted for a product that is
in the index, and a not-found warning only for one that is not, because
the not-found check runs first. -/
theorem claim_C10 (cat sales : List JValue) (st : ComputeResult)
    (d : PriceDict) (cws : List Warning)
    (hc : convert_catalogue_to_dict cat = .ok (d, cws))
    (h : compute_total_sales cat sales = .ok st) :
    st.warnings.countP isSaleWarning ≤ sales.length ∧
      (∀ p, Warning.invalidQty p ∈ st.warnings → inDict p d = true) ∧
      (∀ p, Warning.notFound p ∈ st.warnings → inDict p d = false) :=
  compute_warnings_spec cat d cws hc sales st h

/-- Witness for C10 at the spec's example inputs. -/
theorem claim_C10_witness :
    (⟨20, [.notFound (some (.str "C")),
        .invalidQty (some (.str "B"))]⟩ : ComputeResult).warnings.countP
        isSaleWarning ≤ exampleSales.length ∧
      (∀ p, Warning.invalidQty p ∈
          (⟨20, [.notFound (some (.str "C")),
            .invalidQty (some (.str "B"))]⟩ : ComputeResult).warnings →
        inDict p [("A", 10), ("B", 5)] = true) ∧
      (∀ p, Warning.notFound p ∈
          (⟨20, [.notFound (some (.str "C")),
            .invalidQty (some (.str "B"))]⟩ : ComputeResult).warnings →
        inDict p [("A", 10), ("B", 5)] = false) :=
  claim_C10 exampleCatalogue exampleSales
    ⟨20, [.notFound (some (.str "C")), .invalidQty (some (.str "B"))]⟩
    [("A", 10), ("B", 5)] [] exampleConvert exampleCompute


end ComputeSales
